import Mathlib

/-!
Shallow embedding of `src/storage/CloudClient.ts` (class `CloudClient`), the
object-storage transfer engine: upload strategy selection, single-part and
multi-part upload paths, download progress, the etag accumulation protocol of
the multi-part uploader, and the logical-clock ("mtime") change detector.

Modelling conventions:
- JS strings are `List Char`; decimal millisecond-timestamp strings (the
  logical-clock values produced by `Date.now().toString()` and the initial
  `'0'`) are modelled by the natural number they denote, which is faithful
  for the equality comparison the code performs on them.
- JS numeric arithmetic in the progress formulas is modelled over `ℚ`;
  `Math.round` (round half toward positive infinity) is Mathlib's `round`.
- Network and filesystem effects are oracles passed as explicit arguments
  (HTTP response statuses, response bodies, etag headers, clock readings);
  the calls a method issues are collected in an explicit trace.
-/

namespace CloudClient

/-- The fixed multi-part part size: `const partSizeBytes = 1 * 1024 ** 3`
(CloudClient.ts line 686). -/
def partSizeBytes : ℕ := 1 * 1024 ^ 3

/-- The single/multi part threshold: `const sizeThresholdBytes = 4.9 * 1024 ** 3`
(CloudClient.ts line 373).  The JS expression is evaluated in binary floating
point; its value differs from the exact rational `4.9 * 2^30 = 5261334937.6`
by less than `10 ^ (-6)`, so comparisons against integer file sizes are
identical for the two, and we use the exact rational. -/
def sizeThresholdBytes : ℚ := 49 * 1024 ^ 3 / 10

/-- `path.basename(file)` (posix semantics): ignore trailing separators, then
take everything after the last separator. -/
def basename (p : List Char) : List Char :=
  ((p.reverse.dropWhile fun c => c = '/').takeWhile fun c => c ≠ '/').reverse

/-- `etag.replaceAll('"', '')` (CloudClient.ts line 748): remove every double
quote character, wherever it occurs. -/
def stripQuotes (e : List Char) : List Char :=
  e.filter fun c => c ≠ '"'

/-- Modelled from the spec: "with any wrapping quote characters stripped" —
remove quote characters only from the two ends of the token, leaving interior
characters alone.  This is the spec's description of the etag normalisation,
used to compare against the source's `stripQuotes`. -/
def specStripWrapping (e : List Char) : List Char :=
  (((e.dropWhile fun c => c = '"').reverse.dropWhile fun c => c = '"')).reverse

/-- Does `needle` occur as a contiguous run inside `hay`?  Models JS
`String(error).includes(needle)` (CloudClient.ts line 409). -/
def hasSub (needle : List Char) : List Char → Bool
  | [] => needle.isEmpty
  | c :: rest => needle.isPrefixOf (c :: rest) || hasSub needle rest

/-- `CloudClient.getContentType` (lines 596-607): allow-list on the key
suffix; anything other than `.mp4` / `.png` throws before any network call. -/
def getContentType (key : List Char) : Except (List Char) (List Char) :=
  if List.isSuffixOf ".mp4".data key then .ok "video/mp4".data
  else if List.isSuffixOf ".png".data key then .ok "image/png".data
  else .error "Tried to upload invalid file type".data

/-- The `(offset, bytes)` descriptor of each loop iteration of
`doMultiPartUpload` (lines 692-702, 757-760): starting from `offset`,
`remaining`, each iteration takes
`bytes = remaining > partSizeBytes ? partSizeBytes : remaining`, then advances
`offset += bytes; remaining -= bytes`.  The first argument counts the
remaining iterations (`numParts - part`). -/
def multiPartPlan : ℕ → ℕ → ℕ → List (ℕ × ℕ)
  | 0, _, _ => []
  | n + 1, offset, remaining =>
    let bytes := if partSizeBytes < remaining then partSizeBytes else remaining
    (offset, bytes) :: multiPartPlan n (offset + bytes) (remaining - bytes)

/-- The inclusive byte-index range actually read by
`fs.createReadStream(file, { start, end })` (line 699-702) on a file of
`len` bytes: Node documents both `start` and `end` as inclusive, clipped at
the last byte of the file.  Returned as `(first, last)` inclusive indices. -/
def readStreamRange (len start e : ℕ) : ℕ × ℕ :=
  (start, min e (len - 1))

/-- Number of bytes delivered by the read stream `(start, end)` on a file of
`len` bytes (assuming `start` is within the file). -/
def readStreamLen (len start e : ℕ) : ℕ :=
  min e (len - 1) + 1 - start

/-- One value handed to `progressCallback` by the `onUploadProgress` handler
of a multi-part part PUT (lines 707-716):
`Math.round(100 * (part / numParts) + (1 / numParts) * (100 * (loaded / bytes)))`. -/
def inPartProgress (numParts part bytes loaded : ℕ) : ℤ :=
  round ((100 * ((part : ℚ) / numParts)) + (1 / numParts) * (100 * ((loaded : ℚ) / bytes)))

/-- The value handed to `progressCallback` after a part completes (line 765):
`Math.round((100 * offset) / stats.size)` with `offset` already advanced past
the completed part. -/
def postPartProgress (totalSize offsetAfter : ℕ) : ℤ :=
  round ((100 * (offsetAfter : ℚ)) / totalSize)

/-- The in-part progress values of one part, for the byte counts `loadeds`
reported by the transport during that part's PUT. -/
def partProgressList (numParts part bytes : ℕ) (loadeds : List ℕ) : List ℤ :=
  loadeds.map (inPartProgress numParts part bytes)

/-- The full sequence of values handed to `progressCallback` by
`doMultiPartUpload`, walking the part plan: for each part, its in-part values
followed by the post-part value. -/
def multiTraceAux (len numParts : ℕ) (loaded : ℕ → List ℕ) :
    List (ℕ × ℕ) → ℕ → List ℤ
  | [], _ => []
  | (off, b) :: rest, part =>
    partProgressList numParts part b (loaded part) ++
      postPartProgress len (off + b) :: multiTraceAux len numParts loaded rest (part + 1)

/-- The progress-value sequence of a whole multi-part upload of a file of
`len` bytes with `numParts` signed part URLs, where `loaded p` lists the byte
counts the transport reports during part `p`. -/
def multiPartProgressTrace (len numParts : ℕ) (loaded : ℕ → List ℕ) : List ℤ :=
  multiTraceAux len numParts loaded (multiPartPlan numParts 0 len) 0

/-- One value handed to `progressCallback` by the single-part uploader
(line 625) and by the downloader (line 211):
`Math.round((100 * loaded) / size)`. -/
def roundedPct (size loaded : ℕ) : ℤ :=
  round ((100 * (loaded : ℚ)) / size)

/-- The progress-value sequence of a single-part upload (line 624-625). -/
def singlePartProgressList (size : ℕ) (loadeds : List ℕ) : List ℤ :=
  loadeds.map (roundedPct size)

/-- The progress-value sequence of a download in `getAsFile` (line 210-211). -/
def downloadProgressList (size : ℕ) (loadeds : List ℕ) : List ℤ :=
  loadeds.map (roundedPct size)

/-- HTTP response to a plain PUT: status plus body. -/
structure HttpResponse where
  status : ℕ
  data : List Char
  deriving DecidableEq

/-- HTTP response to one multi-part part PUT: status plus the optional `etag`
response header. -/
structure PartResponse where
  status : ℕ
  etag : Option (List Char)
  deriving DecidableEq

/-- The network calls `CloudClient` can issue against the WR API / object
store.  `abortMultipartUpload` is the remote API's session-cleanup endpoint;
CloudClient.ts contains no call site for it (an abandoned session is left to
the remote side), and it appears here only so that its absence from every
trace is expressible. -/
inductive CloudCall
  | signPut (key : List Char) (length : ℕ)
  | putSingle (key : List Char) (length : ℕ)
  | createMultipartUpload (key : List Char) (length : ℕ)
  | putPart (part offset bytes : ℕ)
  | completeMultipartUpload (key : List Char) (etags : List (List Char))
  | abortMultipartUpload (key : List Char)
  | deleteObject (key : List Char)
  | postMtime (value : ℕ)
  deriving DecidableEq

/-- The bucket key a call addresses, when it has one. -/
def CloudCall.keyOf : CloudCall → Option (List Char)
  | .signPut k _ => some k
  | .putSingle k _ => some k
  | .createMultipartUpload k _ => some k
  | .putPart _ _ _ => none
  | .completeMultipartUpload k _ => some k
  | .abortMultipartUpload k => some k
  | .deleteObject k => some k
  | .postMtime _ => none

/-- The part loop of `doMultiPartUpload` (lines 692-766): walk the plan in
ascending part order; a status `>= 400` (line 730) or a missing etag header
(line 742) throws `Multipart upload failed`; otherwise the etag with all
quotes removed is appended to the accumulating list. -/
def runParts (resp : ℕ → PartResponse) :
    List (ℕ × ℕ) → ℕ → List CloudCall × Except (List Char) (List (List Char))
  | [], _ => ([], .ok [])
  | (off, b) :: rest, part =>
    let r := resp part
    if 400 ≤ r.status then
      ([.putPart part off b], .error "Multipart upload failed".data)
    else
      match r.etag with
      | none => ([.putPart part off b], .error "Multipart upload failed".data)
      | some e =>
        let step := runParts resp rest (part + 1)
        (.putPart part off b :: step.1,
          match step.2 with
          | .error m => .error m
          | .ok ts => .ok (stripQuotes e :: ts))

/-- `doMultiPartUpload` (lines 661-778): key is `path.basename(file)`
(line 666), content type gate, create the session, run the parts, and only
when every part succeeded call `completeMultiPartUpload` with the accumulated
etags (line 768).  `len` is the file length (`stats.size`); `numParts` the
number of signed URLs the gateway returned; `resp` the per-part responses. -/
def doMultiPartUpload (file : List Char) (len numParts : ℕ)
    (resp : ℕ → PartResponse) : List CloudCall × Except (List Char) Unit :=
  let key := basename file
  match getContentType key with
  | .error m => ([], .error m)
  | .ok _ct =>
    let step := runParts resp (multiPartPlan numParts 0 len) 0
    match step.2 with
    | .error m => (.createMultipartUpload key len :: step.1, .error m)
    | .ok ts =>
      (.createMultipartUpload key len :: step.1 ++ [.completeMultipartUpload key ts], .ok ())

/-- `doSinglePartUpload` (lines 613-655): key is `path.basename(file)`
(line 618), content type gate, sign, PUT; a status `>= 400` (line 640) logs
the status and response body via `console.error` (modelled as the middle
component) and throws; any smaller status is success. -/
def doSinglePartUpload (file : List Char) (len : ℕ) (rsp : HttpResponse) :
    List CloudCall × List (ℕ × List Char) × Except (List Char) Unit :=
  let key := basename file
  match getContentType key with
  | .error m => ([], [], .error m)
  | .ok _ct =>
    if 400 ≤ rsp.status then
      ([.signPut key len, .putSingle key len], [(rsp.status, rsp.data)],
        .error "Uploading a file to the cloud failed".data)
    else
      ([.signPut key len, .putSingle key len], [], .ok ())

/-- The single/multi decision of `putFile` (line 375):
`stats.size < sizeThresholdBytes` selects the single-part path. -/
inductive UploadPath
  | single
  | multi
  deriving DecidableEq

/-- The strategy selector of `putFile` (lines 373-379). -/
def uploadStrategy (len : ℕ) : UploadPath :=
  if (len : ℚ) < sizeThresholdBytes then .single else .multi

/-- The process-wide state of the change detector: `bucketLastMod`
(line 30, initial value `'0'`), modelled as the natural number the decimal
string denotes. -/
structure ClientState where
  bucketLastMod : ℕ
  deriving DecidableEq

/-- The observable steps `updateLastMod` and its callers take on the logical
clock, in program order: adopting a value into the local cache, and pushing a
value to the remote mtime object. -/
inductive ClockAction
  | setCache (v : ℕ)
  | pushRemote (v : ℕ)
  deriving DecidableEq

/-- `updateLastMod` (lines 581-589): read the wall clock (`now`), assign
`this.bucketLastMod = mtime` (line 584) and then POST the value to the remote
mtime endpoint (line 588).  The action list records the two steps in program
order. -/
def updateLastMod (now : ℕ) (_s : ClientState) : ClientState × List ClockAction :=
  (⟨now⟩, [.setCache now, .pushRemote now])

/-- `putFile` (lines 361-382): select the path by the size threshold, run the
chosen uploader, and on success call `updateLastMod`.  Returns the network
calls, the clock actions, the outcome, and the resulting state. -/
def putFile (file : List Char) (len : ℕ) (single : HttpResponse)
    (numParts : ℕ) (resp : ℕ → PartResponse) (now : ℕ) (s : ClientState) :
    List CloudCall × List ClockAction × Except (List Char) Unit × ClientState :=
  match uploadStrategy len with
  | .single =>
    let r := doSinglePartUpload file len single
    match r.2.2 with
    | .error m => (r.1, [], .error m, s)
    | .ok _ =>
      let u := updateLastMod now s
      (r.1, u.2, .ok (), u.1)
  | .multi =>
    let r := doMultiPartUpload file len numParts resp
    match r.2 with
    | .error m => (r.1, [], .error m, s)
    | .ok _ =>
      let u := updateLastMod now s
      (r.1, u.2, .ok (), u.1)

/-- `putJsonString` (lines 332-356): sign the key for the UTF-8 byte length,
PUT the buffer; a status `>= 400` (line 350) throws, otherwise
`updateLastMod` runs. -/
def putJsonString (key : List Char) (len : ℕ) (rsp : HttpResponse)
    (now : ℕ) (s : ClientState) :
    List CloudCall × List ClockAction × Except (List Char) Unit × ClientState :=
  if 400 ≤ rsp.status then
    ([.signPut key len, .putSingle key len], [],
      .error "Uploading a JSON string to the cloud failed".data, s)
  else
    let u := updateLastMod now s
    ([.signPut key len, .putSingle key len], u.2, .ok (), u.1)

/-- `delete` (lines 387-396): issue the DELETE, then `updateLastMod`.
The HTTP failure mode (axios throwing) is not modelled: the claim is about
the successful path. -/
def delete (key : List Char) (now : ℕ) (s : ClientState) :
    List CloudCall × List ClockAction × ClientState :=
  let u := updateLastMod now s
  ([.deleteObject key], u.2, u.1)

/-- The change notification the detector can emit. -/
inductive ClientEvent
  | change
  deriving DecidableEq

/-- `checkForUpdate` (lines 561-574): fetch the remote mtime (the oracle
argument), and if it differs from the cache, emit `change` and adopt it;
otherwise do nothing. -/
def checkForUpdate (mtime : ℕ) (s : ClientState) : ClientState × List ClientEvent :=
  if mtime ≠ s.bucketLastMod then (⟨mtime⟩, [.change]) else (s, [])

/-- Outcome of `getMtime` (lines 548-555): the remote value, or a thrown
error rendered as its message string. -/
inductive MtimeResult
  | ok (value : ℕ)
  | err (msg : List Char)

/-- The marker substring distinguishing the empty-bucket condition
(line 409). -/
def noSuchKeyMsg : List Char := "NoSuchKey".data

/-- `pollInit` (lines 402-417): adopt the remote mtime on success; on an
error whose rendering contains `NoSuchKey`, create the clock via
`updateLastMod`; on any other error, re-throw
`Error getting mtime from R2` without touching the cache. -/
def pollInit (r : MtimeResult) (now : ℕ) (s : ClientState) :
    Except (List Char) Unit × ClientState × List ClockAction :=
  match r with
  | .ok v => (.ok (), ⟨v⟩, [.setCache v])
  | .err m =>
    if hasSub noSuchKeyMsg m then
      let u := updateLastMod now s
      (.ok (), u.1, u.2)
    else
      (.error "Error getting mtime from R2".data, s, [])

/-! ## Shared helper lemmas -/

/-- `Math.round` (round half toward positive infinity) is monotone. -/
theorem round_mono_rat {x y : ℚ} (h : x ≤ y) : round x ≤ round y := by
  rw [round_eq, round_eq]
  exact Int.floor_le_floor (by linarith)

/-- `round 100 = 100` over `ℚ`. -/
theorem round_hundred : round (100 : ℚ) = 100 := by
  exact_mod_cast round_natCast (α := ℚ) 100

/-! ## C1 -/

/-- C1: the claim that the byte ranges read and PUT by `doMultiPartUpload`
are non-overlapping and sum to the file length fails on the code: Node's
`fs.createReadStream` treats the `end` option as an inclusive index, and the
code passes `end: offset + bytes` (line 701), so every non-final part reads
one byte past its descriptor, overlapping the next part's first byte.  At
`len = 2^30 + 5` with `numParts = 2 = ceil(len / partSizeBytes)`, part 0's
stream covers bytes `0 .. 2^30` inclusive while part 1 starts at byte
`2^30`, and the two streams deliver `len + 1` bytes in total. -/
theorem c1_read_ranges_overlap :
    multiPartPlan 2 0 (2 ^ 30 + 5) = [(0, 2 ^ 30), (2 ^ 30, 5)] ∧
    readStreamRange (2 ^ 30 + 5) 0 (0 + 2 ^ 30) = (0, 2 ^ 30) ∧
    readStreamRange (2 ^ 30 + 5) (2 ^ 30) (2 ^ 30 + 5) = (2 ^ 30, 2 ^ 30 + 4) ∧
    (readStreamRange (2 ^ 30 + 5) (2 ^ 30) (2 ^ 30 + 5)).1 ≤
      (readStreamRange (2 ^ 30 + 5) 0 (0 + 2 ^ 30)).2 ∧
    readStreamLen (2 ^ 30 + 5) 0 (0 + 2 ^ 30) +
        readStreamLen (2 ^ 30 + 5) (2 ^ 30) (2 ^ 30 + 5) =
      (2 ^ 30 + 5) + 1 := by
  refine ⟨?_, ?_, ?_, ?_, ?_⟩ <;> decide

/-! ## C4 -/

/-- C4: `putFile` takes the single-part path exactly when the file length is
below `sizeThresholdBytes = 4.9 * 2^30` and the multi-part path exactly when
it is at or above it; equivalently, for integer lengths, single-part exactly
for `len ≤ 5261334937` bytes.  The threshold itself is not an integer, and
the strict `<` of line 375 puts any length at or above it on the multi-part
side deterministically. -/
theorem c4_threshold_selector (len : ℕ) :
    (uploadStrategy len = .single ↔ (len : ℚ) < sizeThresholdBytes) ∧
    (uploadStrategy len = .multi ↔ sizeThresholdBytes ≤ (len : ℚ)) ∧
    (uploadStrategy len = .single ↔ len < 5261334938) := by
  have key : (len : ℚ) < sizeThresholdBytes ↔ len < 5261334938 := by
    unfold sizeThresholdBytes
    rw [lt_div_iff₀ (by norm_num : (0 : ℚ) < 10)]
    constructor
    · intro h
      by_contra hc
      push_neg at hc
      have h10 : (52613349380 : ℚ) ≤ (len : ℚ) * 10 := by
        have : ((5261334938 : ℕ) : ℚ) ≤ (len : ℚ) := by exact_mod_cast hc
        push_cast at this ⊢
        linarith
      norm_num at h
      linarith
    · intro h
      have h10 : (len : ℚ) * 10 ≤ 52613349370 := by
        have : (len : ℚ) ≤ ((5261334937 : ℕ) : ℚ) := by exact_mod_cast Nat.lt_succ_iff.mp h
        push_cast at this ⊢
        linarith
      norm_num
      linarith
  unfold uploadStrategy
  by_cases h : (len : ℚ) < sizeThresholdBytes
  · rw [if_pos h]
    exact ⟨⟨fun _ => h, fun _ => rfl⟩,
      ⟨fun hh => absurd hh (by decide), fun hle => absurd h (not_lt.mpr hle)⟩,
      ⟨fun _ => key.mp h, fun _ => rfl⟩⟩
  · rw [if_neg h]
    exact ⟨⟨fun hh => absurd hh (by decide), fun hlt => absurd hlt h⟩,
      ⟨fun _ => not_lt.mp h, fun _ => rfl⟩,
      ⟨fun hh => absurd hh (by decide), fun hlt => absurd (key.mpr hlt) h⟩⟩

/-! ## C6 -/

/-- C6 counterexample: the claim says any non-2xx response status to the
single-part PUT fails the upload, but the code only checks `status >= 400`
(line 640): a 302 response is treated as success. -/
theorem c6_counterexample :
    (doSinglePartUpload "v.mp4".data 100 ⟨302, "body".data⟩).2.2 = .ok () ∧
    ¬ (200 ≤ 302 ∧ 302 < 300) := by
  exact ⟨rfl, by decide⟩

/-- C6 amended: for a single-part upload of a file with an allowed suffix,
a response status `>= 400` to the PUT fails the upload with the thrown
error, and the response body is captured in the diagnostic log; any status
below 400 (including 3xx) is treated as success. -/
theorem c6_amended (file : List Char) (len : ℕ) (rsp : HttpResponse)
    (ct : List Char) (hct : getContentType (basename file) = .ok ct) :
    (400 ≤ rsp.status →
      (doSinglePartUpload file len rsp).2.2 =
          .error "Uploading a file to the cloud failed".data ∧
      (doSinglePartUpload file len rsp).2.1 = [(rsp.status, rsp.data)]) ∧
    (rsp.status < 400 →
      (doSinglePartUpload file len rsp).2.2 = .ok () ∧
      (doSinglePartUpload file len rsp).2.1 = []) := by
  constructor
  · intro h
    unfold doSinglePartUpload
    simp only [hct, if_pos h]
    exact ⟨trivial, trivial⟩
  · intro h
    unfold doSinglePartUpload
    simp only [hct, if_neg (by omega : ¬ 400 ≤ rsp.status)]
    exact ⟨trivial, trivial⟩

/-- Witness for `c6_amended` at a concrete failing and a concrete passing
status. -/
theorem c6_amended_witness :
    ((doSinglePartUpload "v.mp4".data 100 ⟨500, "oops".data⟩).2.2 =
        .error "Uploading a file to the cloud failed".data ∧
      (doSinglePartUpload "v.mp4".data 100 ⟨500, "oops".data⟩).2.1 =
        [(500, "oops".data)]) ∧
    ((doSinglePartUpload "v.mp4".data 100 ⟨200, "".data⟩).2.2 = .ok () ∧
      (doSinglePartUpload "v.mp4".data 100 ⟨200, "".data⟩).2.1 = []) :=
  ⟨(c6_amended "v.mp4".data 100 ⟨500, "oops".data⟩ "video/mp4".data rfl).1
      (by norm_num),
    (c6_amended "v.mp4".data 100 ⟨200, "".data⟩ "video/mp4".data rfl).2
      (by norm_num)⟩

/-! ## C8 -/

/-- C8: a poll tick (`checkForUpdate`) observing a remote clock differing
from the cache emits exactly one `change` event and adopts the new value;
observing an equal value emits nothing and leaves the cache unchanged. -/
theorem c8_checkForUpdate (mtime : ℕ) (s : ClientState) :
    checkForUpdate mtime s =
      (⟨mtime⟩, if mtime = s.bucketLastMod then [] else [.change]) := by
  obtain ⟨c⟩ := s
  unfold checkForUpdate
  by_cases h : mtime = c
  · simp [h]
  · simp [h]

/-! ## C9 -/

/-- C9: `pollInit` adopts the fetched clock on success; on a failure whose
rendering contains `NoSuchKey` (the distinguishable empty-bucket condition)
it creates the clock by advancing (`updateLastMod`: adopt then push); on any
other failure it throws without creating or adopting any clock value. -/
theorem c9_pollInit (v now : ℕ) (m : List Char) (s : ClientState) :
    pollInit (.ok v) now s = (.ok (), ⟨v⟩, [.setCache v]) ∧
    pollInit (.err m) now s =
      (if hasSub noSuchKeyMsg m then
        (.ok (), ⟨now⟩, [.setCache now, .pushRemote now])
      else
        (.error "Error getting mtime from R2".data, s, [])) := by
  refine ⟨rfl, ?_⟩
  unfold pollInit updateLastMod
  by_cases h : hasSub noSuchKeyMsg m
  · simp [h]
  · simp [h]

/-! ## Lemmas about the multi-part part loop -/

/-- Every call the part loop itself issues is a part PUT. -/
theorem runParts_calls_putPart (resp : ℕ → PartResponse) :
    ∀ (plan : List (ℕ × ℕ)) (start : ℕ), ∀ c ∈ (runParts resp plan start).1,
      ∃ q o b, c = CloudCall.putPart q o b := by
  intro plan
  induction plan with
  | nil => intro start c hc; simp [runParts] at hc
  | cons hd tl ih =>
    intro start c hc
    obtain ⟨off, b⟩ := hd
    unfold runParts at hc
    by_cases h : 400 ≤ (resp start).status
    · rw [if_pos h] at hc
      simp at hc
      exact ⟨start, off, b, hc⟩
    · rw [if_neg h] at hc
      cases he : (resp start).etag with
      | none =>
        rw [he] at hc
        simp at hc
        exact ⟨start, off, b, hc⟩
      | some e =>
        rw [he] at hc
        simp at hc
        rcases hc with hc | hc
        · exact ⟨start, off, b, hc⟩
        · exact ih (start + 1) c hc

/-- If some part in the plan has a failing status or a missing etag, the
part loop ends in an error. -/
theorem runParts_error_of_fail (resp : ℕ → PartResponse) :
    ∀ (plan : List (ℕ × ℕ)) (start : ℕ),
      (∃ i < plan.length,
          400 ≤ (resp (start + i)).status ∨ (resp (start + i)).etag = none) →
      ∃ m, (runParts resp plan start).2 = .error m := by
  intro plan
  induction plan with
  | nil =>
    rintro start ⟨i, hi, -⟩
    simp at hi
  | cons hd tl ih =>
    rintro start ⟨i, hi, hfail⟩
    obtain ⟨off, b⟩ := hd
    by_cases h : 400 ≤ (resp start).status
    · exact ⟨_, by unfold runParts; rw [if_pos h]⟩
    · cases he : (resp start).etag with
      | none =>
        refine ⟨"Multipart upload failed".data, ?_⟩
        unfold runParts
        rw [if_neg h, he]
      | some e =>
        have hi0 : i ≠ 0 := by
          rintro rfl
          rw [Nat.add_zero] at hfail
          rcases hfail with hf | hf
          · exact h hf
          · rw [he] at hf
            cases hf
        obtain ⟨m, hm⟩ := ih (start + 1)
          ⟨i - 1, by simp at hi ⊢; omega, by
            rw [show start + 1 + (i - 1) = start + i by omega]
            exact hfail⟩
        refine ⟨m, ?_⟩
        unfold runParts
        rw [if_neg h, he]
        simp only [hm]

/-- If every part in the plan succeeds with an etag, the part loop returns
exactly the quote-stripped etags of the responses, in ascending part
order. -/
theorem runParts_ok_of_allOk (resp : ℕ → PartResponse) :
    ∀ (plan : List (ℕ × ℕ)) (start : ℕ),
      (∀ i < plan.length,
          (resp (start + i)).status < 400 ∧ (resp (start + i)).etag ≠ none) →
      (runParts resp plan start).2 =
        .ok ((List.range plan.length).map fun i =>
          stripQuotes ((resp (start + i)).etag.getD [])) := by
  intro plan
  induction plan with
  | nil => intro start _; rfl
  | cons hd tl ih =>
    intro start hok
    obtain ⟨off, b⟩ := hd
    have h0 := hok 0 (by simp)
    rw [Nat.add_zero] at h0
    obtain ⟨hst, het⟩ := h0
    cases he : (resp start).etag with
    | none => exact absurd he het
    | some e =>
      have hrec := ih (start + 1) (fun i hi => by
        have := hok (i + 1) (by simpa using Nat.succ_lt_succ hi)
        rwa [show start + (i + 1) = start + 1 + i by omega] at this)
      unfold runParts
      rw [if_neg (by omega), he]
      simp only [hrec, List.length_cons, List.range_succ_eq_map, List.map_cons,
        List.map_map, Function.comp_def, Nat.add_zero, he, Option.getD_some]
      refine congrArg Except.ok ?_
      simp only [List.cons.injEq]
      refine ⟨trivial, ?_⟩
      apply List.map_congr_left
      intro i _
      rw [show start + 1 + i = start + i.succ by omega]

/-- The plan list has exactly `numParts` entries. -/
theorem multiPartPlan_length : ∀ (n off rem : ℕ), (multiPartPlan n off rem).length = n := by
  intro n
  induction n with
  | zero => intro off rem; rfl
  | succ k ih => intro off rem; simp [multiPartPlan, ih]

/-! ## C5 -/

/-- C5 counterexample: a part response with the non-2xx status 302 and an
etag header present does not abort the upload; the finalize call is still
issued, contradicting the claim that any non-2xx part response prevents
finalize. -/
theorem c5_counterexample :
    (doMultiPartUpload "v.mp4".data 100 1 (fun _ => ⟨302, some "x".data⟩)).2 = .ok () ∧
    CloudCall.completeMultipartUpload "v.mp4".data ["x".data] ∈
      (doMultiPartUpload "v.mp4".data 100 1 (fun _ => ⟨302, some "x".data⟩)).1 ∧
    ¬ (200 ≤ 302 ∧ 302 < 300) := by
  refine ⟨rfl, by decide, by decide⟩

/-- C5 amended: if any part's PUT yields status `>= 400` or a response
missing the etag completion token, `doMultiPartUpload` raises an error, the
finalize call (`completeMultipartUpload`) is never issued, and no
partial-session cleanup call (`abortMultipartUpload`) is issued either. -/
theorem c5_amended (file : List Char) (len numParts : ℕ)
    (resp : ℕ → PartResponse) (p : ℕ) (hp : p < numParts)
    (hfail : 400 ≤ (resp p).status ∨ (resp p).etag = none) :
    (∃ m, (doMultiPartUpload file len numParts resp).2 = .error m) ∧
    (∀ k ts, CloudCall.completeMultipartUpload k ts ∉
        (doMultiPartUpload file len numParts resp).1) ∧
    (∀ k, CloudCall.abortMultipartUpload k ∉
        (doMultiPartUpload file len numParts resp).1) := by
  simp only [doMultiPartUpload]
  cases hct : getContentType (basename file) with
  | error m => exact ⟨⟨m, rfl⟩, by simp, by simp⟩
  | ok ct =>
    obtain ⟨m, hm⟩ := runParts_error_of_fail resp (multiPartPlan numParts 0 len) 0
      ⟨p, by rw [multiPartPlan_length]; exact hp, by simpa using hfail⟩
    simp only [hm]
    refine ⟨⟨m, rfl⟩, ?_, ?_⟩
    · intro k ts hmem
      rcases List.mem_cons.mp hmem with hmem | hmem
      · cases hmem
      · obtain ⟨q, o, b, hc⟩ := runParts_calls_putPart resp _ 0 _ hmem
        cases hc
    · intro k hmem
      rcases List.mem_cons.mp hmem with hmem | hmem
      · cases hmem
      · obtain ⟨q, o, b, hc⟩ := runParts_calls_putPart resp _ 0 _ hmem
        cases hc

/-- Witness for `c5_amended`: one part whose response has status 500 and no
etag. -/
theorem c5_amended_witness :
    (∃ m, (doMultiPartUpload "v.mp4".data 100 1 (fun _ => ⟨500, none⟩)).2 = .error m) ∧
    (∀ k ts, CloudCall.completeMultipartUpload k ts ∉
        (doMultiPartUpload "v.mp4".data 100 1 (fun _ => ⟨500, none⟩)).1) ∧
    (∀ k, CloudCall.abortMultipartUpload k ∉
        (doMultiPartUpload "v.mp4".data 100 1 (fun _ => ⟨500, none⟩)).1) :=
  c5_amended "v.mp4".data 100 1 (fun _ => ⟨500, none⟩) 0 (by decide)
    (Or.inl (by decide))

/-! ## C3 -/

/-- C3 counterexample: the code strips every quote character from an etag
(`replaceAll`), not only wrapping ones.  For a part whose etag is `a"b`
(no wrapping quotes, one interior quote), the token passed to finalize is
`ab`, while the claim (strip wrapping quotes and only those) demands the
unchanged `a"b`. -/
theorem c3_counterexample :
    (doMultiPartUpload "v.mp4".data 3 1 (fun _ => ⟨200, some ['a', '"', 'b']⟩)).1 =
      [CloudCall.createMultipartUpload (basename "v.mp4".data) 3,
        CloudCall.putPart 0 0 3,
        CloudCall.completeMultipartUpload (basename "v.mp4".data) [['a', 'b']]] ∧
    specStripWrapping ['a', '"', 'b'] = ['a', '"', 'b'] ∧
    (['a', 'b'] : List Char) ≠ ['a', '"', 'b'] := by
  refine ⟨by decide, by decide, by decide⟩

/-- C3 amended: when every part PUT succeeds with an etag, the token list
passed to the finalize call equals, element by element in ascending part
order, the etags of the part responses with every quote character removed
(`replaceAll('"', '')`); this coincides with stripping only wrapping quotes
exactly when no etag carries an interior quote character. -/
theorem c3_amended (file : List Char) (len numParts : ℕ)
    (resp : ℕ → PartResponse) (ct : List Char)
    (hct : getContentType (basename file) = .ok ct)
    (hok : ∀ p < numParts, (resp p).status < 400 ∧ (resp p).etag ≠ none) :
    (doMultiPartUpload file len numParts resp).2 = .ok () ∧
    CloudCall.completeMultipartUpload (basename file)
        ((List.range numParts).map fun p => stripQuotes ((resp p).etag.getD [])) ∈
      (doMultiPartUpload file len numParts resp).1 := by
  have hrun := runParts_ok_of_allOk resp (multiPartPlan numParts 0 len) 0
    (by rw [multiPartPlan_length]; simpa using hok)
  simp only [doMultiPartUpload, hct, hrun, multiPartPlan_length]
  simp

/-- Witness for `c3_amended`: two parts, each answering 200 with the
quote-wrapped etag `"x"`; finalize receives the stripped tokens in order. -/
theorem c3_amended_witness :
    (doMultiPartUpload "v.mp4".data 6 2 (fun _ => ⟨200, some ['"', 'x', '"']⟩)).2 =
      .ok () ∧
    CloudCall.completeMultipartUpload (basename "v.mp4".data)
        ((List.range 2).map fun _ => stripQuotes ((some ['"', 'x', '"']).getD [])) ∈
      (doMultiPartUpload "v.mp4".data 6 2 (fun _ => ⟨200, some ['"', 'x', '"']⟩)).1 :=
  c3_amended "v.mp4".data 6 2 (fun _ => ⟨200, some ['"', 'x', '"']⟩)
    "video/mp4".data rfl (by decide)

/-! ## C7 -/

/-- C7 counterexample: `updateLastMod` adopts `Date.now()` unconditionally
(line 582-584); if a successful mutation runs in the same millisecond as the
one that produced the cached value (wall-clock reading equal to the cache),
the new cached value equals the old one and is not strictly greater. -/
theorem c7_counterexample :
    (CloudClient.delete "k".data 5 ⟨5⟩).2.2.bucketLastMod = 5 ∧
    ¬ (5 : ℕ) < (CloudClient.delete "k".data 5 ⟨5⟩).2.2.bucketLastMod := by
  exact ⟨rfl, by decide⟩

/-- C7 amended: provided the wall-clock reading at the mutation strictly
exceeds the cached value (the spec's clock assumption, strengthened from
"never goes backward" to "advances between mutations"), every successful
mutation (`putFile`, `putJsonString`, `delete`) leaves the cache strictly
greater than before, and the new value is adopted into the local cache
before it is pushed to the remote authority (the action list is in program
order: `setCache` precedes `pushRemote`). -/
theorem c7_amended (now : ℕ) (s : ClientState) (h : s.bucketLastMod < now) :
    ((updateLastMod now s).1.bucketLastMod = now ∧
      s.bucketLastMod < (updateLastMod now s).1.bucketLastMod ∧
      (updateLastMod now s).2 = [.setCache now, .pushRemote now]) ∧
    (∀ file len rsp numParts resp,
      (putFile file len rsp numParts resp now s).2.2.1 = .ok () →
      s.bucketLastMod < (putFile file len rsp numParts resp now s).2.2.2.bucketLastMod ∧
      (putFile file len rsp numParts resp now s).2.1 =
        [.setCache now, .pushRemote now]) ∧
    (∀ key len rsp,
      (putJsonString key len rsp now s).2.2.1 = .ok () →
      s.bucketLastMod < (putJsonString key len rsp now s).2.2.2.bucketLastMod ∧
      (putJsonString key len rsp now s).2.1 = [.setCache now, .pushRemote now]) ∧
    (∀ key,
      s.bucketLastMod < (CloudClient.delete key now s).2.2.bucketLastMod ∧
      (CloudClient.delete key now s).2.1 = [.setCache now, .pushRemote now]) := by
  refine ⟨⟨rfl, h, rfl⟩, ?_, ?_, ?_⟩
  · intro file len rsp numParts resp hok
    unfold putFile at hok ⊢
    cases hstrat : uploadStrategy len with
    | single =>
      simp only [hstrat] at hok ⊢
      cases hr : (doSinglePartUpload file len rsp).2.2 with
      | error m => simp only [hr] at hok; cases hok
      | ok u => simp only [hr]; exact ⟨h, rfl⟩
    | multi =>
      simp only [hstrat] at hok ⊢
      cases hr : (doMultiPartUpload file len numParts resp).2 with
      | error m => simp only [hr] at hok; cases hok
      | ok u => simp only [hr]; exact ⟨h, rfl⟩
  · intro key len rsp hok
    unfold putJsonString at hok ⊢
    by_cases hs : 400 ≤ rsp.status
    · rw [if_pos hs] at hok
      simp at hok
    · rw [if_neg hs]
      exact ⟨h, rfl⟩
  · intro key
    exact ⟨h, rfl⟩

/-- Witness for `c7_amended` at cache `3`, clock reading `10`. -/
theorem c7_amended_witness :
    (updateLastMod 10 ⟨3⟩).1.bucketLastMod = 10 ∧
    (3 : ℕ) < (updateLastMod 10 ⟨3⟩).1.bucketLastMod ∧
    (3 : ℕ) < (CloudClient.delete "k".data 10 ⟨3⟩).2.2.bucketLastMod :=
  ⟨(c7_amended 10 ⟨3⟩ (by norm_num)).1.1,
    (c7_amended 10 ⟨3⟩ (by norm_num)).1.2.1,
    ((c7_amended 10 ⟨3⟩ (by norm_num)).2.2.2 "k".data).1⟩

/-! ## C10 -/

/-- C10: every keyed network call issued by the single-part and multi-part
uploaders (and hence by `putFile`, which delegates to them) addresses the
basename of the supplied file path; consequently two paths with the same
basename produce identical behaviour, targeting the same remote key. -/
theorem c10_key_is_basename :
    (∀ file len rsp, ∀ c ∈ (doSinglePartUpload file len rsp).1,
      c.keyOf = none ∨ c.keyOf = some (basename file)) ∧
    (∀ file len numParts resp, ∀ c ∈ (doMultiPartUpload file len numParts resp).1,
      c.keyOf = none ∨ c.keyOf = some (basename file)) ∧
    (∀ p q, basename p = basename q →
      ∀ len rsp numParts resp now s,
        putFile p len rsp numParts resp now s = putFile q len rsp numParts resp now s) := by
  refine ⟨?_, ?_, ?_⟩
  · intro file len rsp c hc
    simp only [doSinglePartUpload] at hc
    cases hct : getContentType (basename file) with
    | error m => rw [hct] at hc; simp at hc
    | ok ct =>
      rw [hct] at hc
      by_cases hs : 400 ≤ rsp.status
      · rw [if_pos hs] at hc
        simp at hc
        rcases hc with hc | hc <;> subst hc <;> right <;> rfl
      · rw [if_neg hs] at hc
        simp at hc
        rcases hc with hc | hc <;> subst hc <;> right <;> rfl
  · intro file len numParts resp c hc
    simp only [doMultiPartUpload] at hc
    cases hct : getContentType (basename file) with
    | error m => rw [hct] at hc; simp at hc
    | ok ct =>
      rw [hct] at hc
      cases hr : (runParts resp (multiPartPlan numParts 0 len) 0).2 with
      | error m =>
        rw [hr] at hc
        rcases List.mem_cons.mp hc with hc | hc
        · subst hc; right; rfl
        · obtain ⟨qq, o, b, rfl⟩ := runParts_calls_putPart resp _ 0 _ hc
          left; rfl
      | ok ts =>
        rw [hr] at hc
        rcases List.mem_cons.mp hc with hc | hc
        · subst hc; right; rfl
        · rcases List.mem_append.mp hc with hc | hc
          · obtain ⟨qq, o, b, rfl⟩ := runParts_calls_putPart resp _ 0 _ hc
            left; rfl
          · rcases List.mem_singleton.mp hc with rfl
            right; rfl
  · intro p q hpq len rsp numParts resp now s
    unfold putFile doSinglePartUpload doMultiPartUpload
    rw [hpq]

/-- Witness for `c10_key_is_basename`: two distinct paths with the same
basename behave identically. -/
theorem c10_key_is_basename_witness :
    putFile "a/v.mp4".data 100 ⟨200, []⟩ 1 (fun _ => ⟨200, some []⟩) 7 ⟨0⟩ =
      putFile "b/v.mp4".data 100 ⟨200, []⟩ 1 (fun _ => ⟨200, some []⟩) 7 ⟨0⟩ :=
  c10_key_is_basename.2.2 "a/v.mp4".data "b/v.mp4".data (by decide)
    100 ⟨200, []⟩ 1 (fun _ => ⟨200, some []⟩) 7 ⟨0⟩

/-! ## Lemmas about progress values -/

/-- `Math.round((100 * x) / d)` is monotone in the numerator `x`. -/
theorem roundRatio_mono (d : ℕ) {x y : ℕ} (h : x ≤ y) :
    round ((100 * (x : ℚ)) / d) ≤ round ((100 * (y : ℚ)) / d) := by
  apply round_mono_rat
  rcases Nat.eq_zero_or_pos d with h0 | h0
  · subst h0
    simp
  · have hd : (0 : ℚ) < d := by exact_mod_cast h0
    rw [div_le_div_iff_of_pos_right hd]
    have : (x : ℚ) ≤ y := by exact_mod_cast h
    linarith

/-- The single-part / download progress formula is monotone in `loaded`. -/
theorem roundedPct_mono (size : ℕ) {l l' : ℕ} (h : l ≤ l') :
    roundedPct size l ≤ roundedPct size l' :=
  roundRatio_mono size h

/-- The post-part progress formula is monotone in the completed offset. -/
theorem postPartProgress_mono (len : ℕ) {x y : ℕ} (h : x ≤ y) :
    postPartProgress len x ≤ postPartProgress len y :=
  roundRatio_mono len h

/-- The in-part progress formula is monotone in `loaded`. -/
theorem inPartProgress_mono (numParts part bytes : ℕ) {l l' : ℕ} (h : l ≤ l') :
    inPartProgress numParts part bytes l ≤ inPartProgress numParts part bytes l' := by
  unfold inPartProgress
  apply round_mono_rat
  apply add_le_add_left
  apply mul_le_mul_of_nonneg_left _ (by positivity : (0 : ℚ) ≤ 1 / numParts)
  apply mul_le_mul_of_nonneg_left _ (by norm_num : (0 : ℚ) ≤ 100)
  rcases Nat.eq_zero_or_pos bytes with h0 | h0
  · subst h0
    simp
  · have hb : (0 : ℚ) < bytes := by exact_mod_cast h0
    rw [div_le_div_iff_of_pos_right hb]
    exact_mod_cast h

/-- Explicit description of the `p`-th loop descriptor: its offset is
`min (p * partSizeBytes) rem` past the starting offset, and its size is
whatever remains there, capped at a full part. -/
theorem multiPartPlan_get :
    ∀ (n off rem i : ℕ), i < n →
      (multiPartPlan n off rem)[i]? =
        some (off + min (i * partSizeBytes) rem,
          min partSizeBytes (rem - min (i * partSizeBytes) rem)) := by
  intro n
  induction n with
  | zero => intro off rem i hi; omega
  | succ k ih =>
    intro off rem i hi
    cases i with
    | zero =>
      by_cases hPr : partSizeBytes < rem
      · simp only [multiPartPlan, if_pos hPr, List.getElem?_cons_zero,
          Option.some.injEq, Prod.mk.injEq, Nat.zero_mul]
        omega
      · simp only [multiPartPlan, if_neg hPr, List.getElem?_cons_zero,
          Option.some.injEq, Prod.mk.injEq, Nat.zero_mul]
        omega
    | succ j =>
      have hj : j < k := by omega
      simp only [multiPartPlan, List.getElem?_cons_succ]
      rw [ih _ _ j hj]
      rw [Nat.succ_mul]
      by_cases hPr : partSizeBytes < rem
      · simp only [if_pos hPr, Option.some.injEq, Prod.mk.injEq]
        omega
      · simp only [if_neg hPr, Option.some.injEq, Prod.mk.injEq]
        omega

/-- Consecutive loop descriptors have non-decreasing completed offsets. -/
theorem multiPartPlan_ends_chain :
    ∀ (n off rem : ℕ),
      List.Chain' (fun a b : ℕ × ℕ => a.1 + a.2 ≤ b.1 + b.2)
        (multiPartPlan n off rem) := by
  intro n
  induction n with
  | zero => intro off rem; exact List.chain'_nil
  | succ k ih =>
    intro off rem
    simp only [multiPartPlan]
    rw [List.chain'_cons']
    refine ⟨?_, ih _ _⟩
    intro y hy
    cases k with
    | zero => simp [multiPartPlan] at hy
    | succ k2 =>
      simp only [multiPartPlan, List.head?_cons, Option.mem_def,
        Option.some.injEq] at hy
      subst hy
      simp

/-- The last value of the multi-part progress trace is the post-part value of
the plan's last descriptor. -/
theorem multiTraceAux_getLast? (len numParts : ℕ) (loaded : ℕ → List ℕ) :
    ∀ (plan : List (ℕ × ℕ)) (part : ℕ),
      (multiTraceAux len numParts loaded plan part).getLast? =
        plan.getLast?.map fun ob => postPartProgress len (ob.1 + ob.2) := by
  intro plan
  induction plan with
  | nil => intro part; rfl
  | cons hd tl ih =>
    intro part
    obtain ⟨off, b⟩ := hd
    cases tl with
    | nil =>
      show (partProgressList numParts part b (loaded part) ++
        postPartProgress len (off + b) :: multiTraceAux len numParts loaded [] (part + 1)).getLast? = _
      simp [multiTraceAux, List.getLast?_concat]
    | cons hd2 tl2 =>
      have hT := ih (part + 1)
      have hTne : multiTraceAux len numParts loaded (hd2 :: tl2) (part + 1) ≠ [] := by
        obtain ⟨off2, b2⟩ := hd2
        simp [multiTraceAux]
      show (partProgressList numParts part b (loaded part) ++
        postPartProgress len (off + b) ::
          multiTraceAux len numParts loaded (hd2 :: tl2) (part + 1)).getLast? = _
      rw [List.getLast?_append_of_ne_nil _ (by simp)]
      obtain ⟨th, tt, hT2⟩ := List.exists_cons_of_ne_nil hTne
      rw [hT2, List.getLast?_cons_cons, ← hT2, hT]
      rw [List.getLast?_cons_cons]

/-- With at least enough parts to exhaust the file (`len ≤ numParts * P`,
implied by `numParts = ceil(len / P)`), the trace ends with the post-part
value of offset `len`, which rounds to 100. -/
theorem multiPartProgressTrace_last (len numParts : ℕ) (loaded : ℕ → List ℕ)
    (hlen : 0 < len) (hN : len ≤ numParts * partSizeBytes) (hN0 : 0 < numParts) :
    (multiPartProgressTrace len numParts loaded).getLast? = some 100 := by
  unfold multiPartProgressTrace
  rw [multiTraceAux_getLast?, List.getLast?_eq_getElem?, multiPartPlan_length,
    multiPartPlan_get numParts 0 len (numParts - 1) (by omega)]
  have hmul : (numParts - 1) * partSizeBytes + partSizeBytes =
      numParts * partSizeBytes := by
    cases numParts with
    | zero => omega
    | succ k2 => simp [Nat.succ_mul]
  have hsum : 0 + min ((numParts - 1) * partSizeBytes) len +
      min partSizeBytes (len - min ((numParts - 1) * partSizeBytes) len) = len := by
    omega
  simp only [Option.map_some']
  rw [hsum]
  unfold postPartProgress
  have hne : ((len : ℚ)) ≠ 0 := by
    exact_mod_cast hlen.ne'
  rw [mul_div_assoc, div_self hne, mul_one, round_hundred]

/-- Dominance: an in-part value of part `p` never exceeds the post-part
value reported after part `p` completes, when the part count suffices to
exhaust the file. -/
theorem inPartProgress_le_postPartProgress
    (len numParts p off b l : ℕ)
    (hlen : 0 < len) (hN : len ≤ numParts * partSizeBytes)
    (hget : (multiPartPlan numParts 0 len)[p]? = some (off, b)) (hl : l ≤ b) :
    inPartProgress numParts p b l ≤ postPartProgress len (off + b) := by
  have hp : p < numParts := by
    by_contra hc
    rw [List.getElem?_eq_none
      (by rw [multiPartPlan_length]; omega)] at hget
    cases hget
  have hchar := multiPartPlan_get numParts 0 len p hp
  rw [hget] at hchar
  simp only [Option.some.injEq, Prod.mk.injEq] at hchar
  obtain ⟨hoff, hb⟩ := hchar
  have hmul : (p + 1) * partSizeBytes = p * partSizeBytes + partSizeBytes :=
    Nat.succ_mul p partSizeBytes
  have hsum : off + b = min ((p + 1) * partSizeBytes) len := by
    omega
  have hN0 : 0 < numParts := by omega
  have hkey : (p + 1) * len ≤ (off + b) * numParts := by
    rw [hsum]
    rcases le_or_lt ((p + 1) * partSizeBytes) len with hc | hc
    · rw [min_eq_left hc]
      calc (p + 1) * len ≤ (p + 1) * (numParts * partSizeBytes) :=
            Nat.mul_le_mul_left _ hN
        _ = (p + 1) * partSizeBytes * numParts := by ring
    · rw [min_eq_right (le_of_lt hc)]
      calc (p + 1) * len ≤ numParts * len := Nat.mul_le_mul_right _ (by omega)
        _ = len * numParts := by ring
  unfold inPartProgress postPartProgress
  apply round_mono_rat
  have hNq : (0 : ℚ) < numParts := by exact_mod_cast hN0
  have hlq : (0 : ℚ) < len := by exact_mod_cast hlen
  have hfin : (100 * ((l : ℚ) / b)) ≤ 100 := by
    rcases Nat.eq_zero_or_pos b with h0 | h0
    · subst h0
      simp
    · have hbq : (0 : ℚ) < b := by exact_mod_cast h0
      have : (l : ℚ) / b ≤ 1 := by
        rw [div_le_one hbq]
        exact_mod_cast hl
      nlinarith
  have step1 : (100 * ((p : ℚ) / numParts)) + (1 / numParts) * (100 * ((l : ℚ) / b)) ≤
      100 * ((p : ℚ) + 1) / numParts := by
    have h1N : (0 : ℚ) ≤ 1 / numParts := by positivity
    have hmono : (1 / (numParts : ℚ)) * (100 * ((l : ℚ) / b)) ≤ (1 / numParts) * 100 :=
      mul_le_mul_of_nonneg_left hfin h1N
    have heq : 100 * ((p : ℚ) / numParts) + (1 / numParts) * 100 =
        100 * ((p : ℚ) + 1) / numParts := by
      field_simp
      ring
    linarith
  have step2 : 100 * ((p : ℚ) + 1) / numParts ≤ (100 * (((off : ℕ) + b : ℕ) : ℚ)) / len := by
    rw [div_le_div_iff₀ hNq hlq]
    have hkq : ((p : ℚ) + 1) * len ≤ (((off + b : ℕ) : ℚ)) * numParts := by
      have := hkey
      push_cast
      exact_mod_cast hkey
    nlinarith
  linarith

/-! ## C2 -/

/-- C2 counterexample: for a 2.5 GiB file in 3 parts (the last part half
size), the value reported after part 0 completes is 40, but an in-part
event at the start of part 1 reports `round(100/3) = 33`: the sequence of
values passed to the progress callback is not non-decreasing. -/
theorem c2_counterexample :
    multiPartProgressTrace (5 * 2 ^ 29) 3 (fun p => if p = 1 then [0] else []) =
      [40, 33, 80, 100] ∧
    ¬ List.Chain' (· ≤ ·)
      (multiPartProgressTrace (5 * 2 ^ 29) 3 (fun p => if p = 1 then [0] else [])) := by
  have hplan : multiPartPlan 3 0 (5 * 2 ^ 29) =
      [(0, 2 ^ 30), (2 ^ 30, 2 ^ 30), (2 ^ 31, 2 ^ 29)] := by decide
  have h : multiPartProgressTrace (5 * 2 ^ 29) 3 (fun p => if p = 1 then [0] else []) =
      [40, 33, 80, 100] := by
    rw [multiPartProgressTrace, hplan]
    norm_num [multiTraceAux, partProgressList, postPartProgress, inPartProgress,
      round_eq]
  refine ⟨h, ?_⟩
  rw [h]
  norm_num [List.chain'_cons]

/-- C2 amended: for single-part uploads and downloads the reported values
are non-decreasing (given non-decreasing byte counts from the transport) and
end at 100 on success (final event reports the full size).  For a multi-part
upload with `numParts = ceil(len / partSizeBytes)`: the in-part values of
each part are non-decreasing, the post-part values are non-decreasing across
parts, every in-part value of part `p` is at most the post-part value
reported after part `p`, and the final reported value is 100; but an early
in-part value of part `p + 1` may be smaller than the post-part value of
part `p` (see the counterexample), so the full multi-part sequence need not
be non-decreasing. -/
theorem c2_amended :
    (∀ size loadeds, List.Chain' (· ≤ ·) loadeds →
      List.Chain' (· ≤ ·) (singlePartProgressList size loadeds)) ∧
    (∀ size loadeds, 0 < size → loadeds.getLast? = some size →
      (singlePartProgressList size loadeds).getLast? = some 100) ∧
    (∀ size loadeds, List.Chain' (· ≤ ·) loadeds →
      List.Chain' (· ≤ ·) (downloadProgressList size loadeds)) ∧
    (∀ size loadeds, 0 < size → loadeds.getLast? = some size →
      (downloadProgressList size loadeds).getLast? = some 100) ∧
    (∀ numParts part bytes loadeds, List.Chain' (· ≤ ·) loadeds →
      List.Chain' (· ≤ ·) (partProgressList numParts part bytes loadeds)) ∧
    (∀ len numParts, List.Chain' (· ≤ ·)
      ((multiPartPlan numParts 0 len).map fun ob => postPartProgress len (ob.1 + ob.2))) ∧
    (∀ len numParts p off b l, 0 < len →
      numParts = (len + partSizeBytes - 1) / partSizeBytes →
      (multiPartPlan numParts 0 len)[p]? = some (off, b) → l ≤ b →
      inPartProgress numParts p b l ≤ postPartProgress len (off + b)) ∧
    (∀ len numParts loaded, 0 < len →
      numParts = (len + partSizeBytes - 1) / partSizeBytes →
      (multiPartProgressTrace len numParts loaded).getLast? = some 100) := by
  have hPval : partSizeBytes = 1073741824 := by norm_num [partSizeBytes]
  have hceil : ∀ len numParts : ℕ, 0 < len →
      numParts = (len + partSizeBytes - 1) / partSizeBytes →
      len ≤ numParts * partSizeBytes ∧ 0 < numParts := by
    intro len numParts hlen hdef
    rw [hPval] at hdef ⊢
    subst hdef
    omega
  refine ⟨?_, ?_, ?_, ?_, ?_, ?_, ?_, ?_⟩
  · intro size loadeds hch
    exact List.chain'_map_of_chain' _ (fun a b hab => roundedPct_mono size hab) hch
  · intro size loadeds hsize hlast
    unfold singlePartProgressList
    rw [List.getLast?_map, hlast]
    simp only [Option.map_some']
    unfold roundedPct
    rw [mul_div_assoc, div_self (by exact_mod_cast hsize.ne' : ((size : ℚ)) ≠ 0),
      mul_one, round_hundred]
  · intro size loadeds hch
    exact List.chain'_map_of_chain' _ (fun a b hab => roundedPct_mono size hab) hch
  · intro size loadeds hsize hlast
    unfold downloadProgressList
    rw [List.getLast?_map, hlast]
    simp only [Option.map_some']
    unfold roundedPct
    rw [mul_div_assoc, div_self (by exact_mod_cast hsize.ne' : ((size : ℚ)) ≠ 0),
      mul_one, round_hundred]
  · intro numParts part bytes loadeds hch
    exact List.chain'_map_of_chain' _
      (fun a b hab => inPartProgress_mono numParts part bytes hab) hch
  · intro len numParts
    exact List.chain'_map_of_chain' _
      (fun a b hab => postPartProgress_mono len hab)
      (multiPartPlan_ends_chain numParts 0 len)
  · intro len numParts p off b l hlen hdef hget hl
    obtain ⟨hN, hN0⟩ := hceil len numParts hlen hdef
    exact inPartProgress_le_postPartProgress len numParts p off b l hlen hN hget hl
  · intro len numParts loaded hlen hdef
    obtain ⟨hN, hN0⟩ := hceil len numParts hlen hdef
    exact multiPartProgressTrace_last len numParts loaded hlen hN hN0

/-- Witness for `c2_amended` at concrete sizes and event traces. -/
theorem c2_amended_witness :
    (List.Chain' (· ≤ ·) (singlePartProgressList 4 [1, 4]) ∧
      (singlePartProgressList 4 [1, 4]).getLast? = some 100) ∧
    (List.Chain' (· ≤ ·) (downloadProgressList 4 [1, 4]) ∧
      (downloadProgressList 4 [1, 4]).getLast? = some 100) ∧
    List.Chain' (· ≤ ·) (partProgressList 2 0 4 [1, 4]) ∧
    inPartProgress 1 0 5 3 ≤ postPartProgress 5 (0 + 5) ∧
    (multiPartProgressTrace 5 1 fun _ => []).getLast? = some 100 :=
  ⟨⟨c2_amended.1 4 [1, 4] (by norm_num [List.chain'_cons]),
      c2_amended.2.1 4 [1, 4] (by norm_num) rfl⟩,
    ⟨c2_amended.2.2.1 4 [1, 4] (by norm_num [List.chain'_cons]),
      c2_amended.2.2.2.1 4 [1, 4] (by norm_num) rfl⟩,
    c2_amended.2.2.2.2.1 2 0 4 [1, 4] (by norm_num [List.chain'_cons]),
    c2_amended.2.2.2.2.2.2.1 5 1 0 0 5 3 (by norm_num)
      (by norm_num [partSizeBytes]) (by decide) (by norm_num),
    c2_amended.2.2.2.2.2.2.2 5 1 (fun _ => []) (by norm_num)
      (by norm_num [partSizeBytes])⟩

end CloudClient
